import Mathlib

/-!
Verification of the ownership-graph engine, access-control resolver,
weighted-statistics aggregator and lease-tenancy validator of the
doorway-property-management-v2 server.

The definitions below are shallow embeddings of the TypeScript source:
the storage layer (DatabaseStorage) and the Express route handlers.
Company, user, property, lease and relation records are modelled as
structures over Nat identifiers; SQL decimal columns and JavaScript
number arithmetic are modelled with exact rationals; dates are modelled
as naturals ordered like calendar dates (e.g. the YYYYMMDD encoding);
nullable columns are Option; thrown errors are Except.error.

The two recursive graph traversals of the source are unbounded
JavaScript recursions; they are embedded with an explicit fuel
parameter standing for the call stack.  For the visited-set traversal
(getAccessibleCompanyIds) we prove that the result stabilises once the
fuel reaches a bound computed from the relation list, on every graph
including cyclic ones, which is the termination argument of the source.
-/

-- Decidable equality for Except results, used to evaluate the route
-- models on concrete inputs.
deriving instance DecidableEq for Except

/-- User roles of the users table. -/
inductive Role where
  | admin
  | user
  | broker
deriving DecidableEq, Repr

/-- Dashboard view modes of the users table. -/
inductive ViewMode where
  | total
  | weighted
deriving DecidableEq, Repr

/-- A row of the companies table (the fields the core logic reads). -/
structure Company where
  id : Nat
  organizationId : Nat
deriving DecidableEq, Repr

/-- A row of the company_relations table: a directed weighted ownership
edge from parentCompanyId to childCompanyId. -/
structure CompanyRelation where
  id : Nat
  parentCompanyId : Nat
  childCompanyId : Nat
  ownershipPercentage : ℚ
deriving DecidableEq, Repr

/-- A row of the users table (the fields the core logic reads). -/
structure User where
  id : Nat
  organizationId : Nat
  role : Role
  assignedCompanyId : Option Nat
  dashboardViewMode : ViewMode
deriving DecidableEq, Repr

/-- A row of the properties table (the fields the core logic reads).
acquisitionDate is a nullable date column, encoded order-isomorphically
as Option Nat. -/
structure Property where
  id : Nat
  ownerCompanyId : Option Nat
  organizationId : Nat
  acquisitionPrice : ℚ
  acquisitionDate : Option Nat
deriving DecidableEq, Repr

/-- A row of the leases table (the fields the core logic reads). -/
structure Lease where
  id : Nat
  propertyId : Nat
  organizationId : Nat
  totalArea : Nat
deriving DecidableEq, Repr

/-- A row of the lease_tenants table (the fields the tenancy validator
reads): periodStart inclusive, periodEnd inclusive and nullable. -/
structure LeaseTenantRec where
  leaseId : Nat
  tenantId : Nat
  periodStart : Nat
  periodEnd : Option Nat
deriving DecidableEq, Repr

/-- The persistent store the storage layer queries. -/
structure DBState where
  users : List User
  companies : List Company
  companyRelations : List CompanyRelation
  properties : List Property
  leases : List Lease
deriving DecidableEq, Repr

/-- storage.getUser: select from users where id = userId. -/
def getUser (s : DBState) (userId : Nat) : Option User :=
  s.users.find? (fun u => u.id == userId)

/-- storage.getCompany: select from companies where id and organizationId
match. -/
def getCompany (s : DBState) (id organizationId : Nat) : Option Company :=
  s.companies.find? (fun c => c.id == id && c.organizationId == organizationId)

/-- storage.getChildRelations: relations whose parentCompanyId is the
given company. -/
def getChildRelations (rels : List CompanyRelation) (companyId : Nat) :
    List CompanyRelation :=
  rels.filter (fun r => r.parentCompanyId == companyId)

/-- storage.getParentRelations: relations whose childCompanyId is the
given company. -/
def getParentRelations (rels : List CompanyRelation) (companyId : Nat) :
    List CompanyRelation :=
  rels.filter (fun r => r.childCompanyId == companyId)

/-- Sum of incoming ownership percentages of a child company, as computed
by the POST /api/company-relations handler over getParentRelations. -/
def childSum (rels : List CompanyRelation) (companyId : Nat) : ℚ :=
  ((getParentRelations rels companyId).map (fun r => r.ownershipPercentage)).sum

/-- The traversal state of getAccessibleCompanyIds: the visitedCompanies
set and the accessibleCompanies set, modelled as lists. -/
abbrev TravState := List Nat × List Nat

/-- The inner traverseOwnership closure of storage.getAccessibleCompanyIds.
The source recursion is unbounded JavaScript recursion; the fuel
parameter models the call stack (the stabilisation theorems below show
the result is independent of the fuel once it reaches traversalFuel).
A company already in the visited set ends the branch; an unvisited
company is added to visited, added to accessible when its cumulative
ownership is positive, and its child relations are traversed with
ownership scaled by pct/100. -/
def traverseOwnership (rels : List CompanyRelation) :
    Nat → Nat → ℚ → TravState → TravState
  | 0, _, _, s => s
  | fuel + 1, currentCompanyId, currentOwnership, s =>
    if currentCompanyId ∈ s.1 then s
    else
      let s1 : TravState :=
        (currentCompanyId :: s.1,
         if 0 < currentOwnership then currentCompanyId :: s.2 else s.2)
      (getChildRelations rels currentCompanyId).foldl
        (fun t r =>
          traverseOwnership rels fuel r.childCompanyId
            (currentOwnership * r.ownershipPercentage / 100) t)
        s1

/-- Fuel sufficient for traverseOwnership to run to completion: one more
than the number of distinct child company ids (each frame that passes the
visited check marks a new company visited, and only child ids and the
root are ever visited). -/
def traversalFuel (rels : List CompanyRelation) : Nat :=
  (rels.map (fun r => r.childCompanyId)).dedup.length + 1

/-- storage.getAccessibleCompanyIds: all companies transitively owned by
companyId with positive cumulative ownership, starting from ownership
100. -/
def getAccessibleCompanyIds (rels : List CompanyRelation) (companyId : Nat) :
    List Nat :=
  (traverseOwnership rels (traversalFuel rels) companyId 100 ([], [])).2

/-- storage.getProperties.  With no userId: all properties of the
organization.  With a userId: empty when the user is missing or has no
assigned company; otherwise the properties of the organization whose
ownerCompanyId is in the accessible set (SQL inArray is false on a null
ownerCompanyId). -/
def getProperties (s : DBState) (organizationId : Nat) (userId : Option Nat) :
    List Property :=
  match userId with
  | none => s.properties.filter (fun p => p.organizationId == organizationId)
  | some uid =>
    match getUser s uid with
    | none => []
    | some u =>
      match u.assignedCompanyId with
      | none => []
      | some root =>
        let accessibleCompanyIds := getAccessibleCompanyIds s.companyRelations root
        if accessibleCompanyIds.length == 0 then []
        else
          s.properties.filter (fun p =>
            p.organizationId == organizationId &&
              match p.ownerCompanyId with
              | some c => accessibleCompanyIds.contains c
              | none => false)

/-- storage.getLeases, returning each lease joined with its property
(inner join on leases.propertyId = properties.id).  With no userId: all
leases of the organization.  With a userId: empty when the user is
missing or has no assigned company; otherwise the leases of the
organization whose joined property is owned by an accessible company. -/
def getLeases (s : DBState) (organizationId : Nat) (userId : Option Nat) :
    List (Lease × Property) :=
  match userId with
  | none =>
    s.leases.flatMap (fun l =>
      (s.properties.filter (fun p =>
        p.id == l.propertyId && l.organizationId == organizationId)).map
        (fun p => (l, p)))
  | some uid =>
    match getUser s uid with
    | none => []
    | some u =>
      match u.assignedCompanyId with
      | none => []
      | some root =>
        let accessibleCompanyIds := getAccessibleCompanyIds s.companyRelations root
        if accessibleCompanyIds.length == 0 then []
        else
          s.leases.flatMap (fun l =>
            (s.properties.filter (fun p =>
              p.id == l.propertyId && l.organizationId == organizationId &&
                match p.ownerCompanyId with
                | some c => accessibleCompanyIds.contains c
                | none => false)).map
              (fun p => (l, p)))

/-- The GET /api/properties handler: admins and brokers read with no
userId (full organization), regular users read with their own userId. -/
def getPropertiesRoute (s : DBState) (u : User) : List Property :=
  getProperties s u.organizationId
    (if u.role = Role.admin ∨ u.role = Role.broker then none else some u.id)

/-- storage.calculateOwnershipFromRoot (Algorithm B): the sum over all
paths from root to target of the product of the per-edge pct/100
factors; 1 when root = target.  The source recursion is unbounded and
has no cycle protection, so the embedding carries a fuel parameter for
the call stack; exhausted fuel contributes 0 (the source would instead
overflow the stack there, which only happens on cyclic graphs). -/
def calculateOwnershipFromRoot (rels : List CompanyRelation) :
    Nat → Nat → Nat → ℚ
  | fuel, rootCompanyId, targetCompanyId =>
    if rootCompanyId = targetCompanyId then 1
    else
      match fuel with
      | 0 => 0
      | fuel + 1 =>
        ((rels.filter (fun r => r.parentCompanyId == rootCompanyId)).map
          (fun r =>
            let directPercentage := r.ownershipPercentage / 100
            if r.childCompanyId == targetCompanyId then directPercentage
            else
              directPercentage *
                calculateOwnershipFromRoot rels fuel r.childCompanyId
                  targetCompanyId)).sum

/-- The stand-in the source uses for an open end date:
new Date of 2099-12-31, in the YYYYMMDD encoding. -/
def sentinelDate : Nat := 20991231

/-- The overlap test of storage.createLeaseTenant: candidate start at or
before the existing end (open end read as the 2099-12-31 sentinel) and
candidate end (open end read the same way) at or after the existing
start. -/
def overlapsB (cand existing : LeaseTenantRec) : Bool :=
  (cand.periodStart ≤ existing.periodEnd.getD sentinelDate) &&
    (cand.periodEnd.getD sentinelDate ≥ existing.periodStart)

/-- The active test of storage.createLeaseTenant: the period contains
today (start at or before today, and no end or end at or after today). -/
def isActiveB (today : Nat) (t : LeaseTenantRec) : Bool :=
  t.periodStart ≤ today &&
    match t.periodEnd with
    | none => true
    | some e => today ≤ e

/-- The overlap error message thrown by storage.createLeaseTenant. -/
def overlapMsg : String := "Lejeperioden overlapper med en eksisterende kontrakt"

/-- The active-tenant error message thrown by storage.createLeaseTenant. -/
def activeMsg : String := "Der er allerede en aktiv lejer for dette lejemål"

/-- storage.createLeaseTenant: reads the existing records of the lease,
throws the overlap error when the candidate overlaps any of them, then
throws the active-tenant error when the candidate and some existing
record both contain today, and otherwise inserts the candidate. -/
def createLeaseTenant (db : List LeaseTenantRec) (today : Nat)
    (cand : LeaseTenantRec) : Except String (List LeaseTenantRec) :=
  let existingTenants := db.filter (fun t => t.leaseId == cand.leaseId)
  if existingTenants.any (fun existing => overlapsB cand existing) then
    Except.error overlapMsg
  else
    let isCurrentContract := isActiveB today cand
    if isCurrentContract &&
        (existingTenants.filter (fun t => isActiveB today t)).length > 0 then
      Except.error activeMsg
    else
      Except.ok (db ++ [cand])

/-- Errors surfaced by the company-relation route handlers.  The
invariant violation carries the computed would-be total and the existing
total that the Danish message of the handler interpolates. -/
inductive RelErr where
  | validation
  | notFound
  | invariant (newTotal currentTotal : ℚ)
deriving DecidableEq, Repr

/-- The POST /api/company-relations handler: rejects a percentage
outside 0.01..100, requires both companies in the caller organization
(404 otherwise), rejects when the existing incoming total of the child
plus the new percentage exceeds 100, and otherwise inserts the new
relation. -/
def createCompanyRelationRoute (s : DBState) (organizationId : Nat)
    (parentCompanyId childCompanyId : Nat) (ownershipPercentage : ℚ)
    (newId : Nat) : Except RelErr (List CompanyRelation) :=
  if ownershipPercentage < 1/100 ∨ 100 < ownershipPercentage then
    Except.error RelErr.validation
  else
    match getCompany s parentCompanyId organizationId,
        getCompany s childCompanyId organizationId with
    | some _, some _ =>
      let currentTotalPercentage := childSum s.companyRelations childCompanyId
      let newTotalPercentage := currentTotalPercentage + ownershipPercentage
      if 100 < newTotalPercentage then
        Except.error (RelErr.invariant newTotalPercentage currentTotalPercentage)
      else
        Except.ok (s.companyRelations ++
          [{ id := newId, parentCompanyId := parentCompanyId,
             childCompanyId := childCompanyId,
             ownershipPercentage := ownershipPercentage }])
    | _, _ => Except.error RelErr.notFound

/-- The PUT /api/company-relations/:id handler: rejects a falsy
percentage or one outside 0.01..100, and otherwise updates the relation
with that id in place — with no organization check and no re-validation
of the incoming-percentage total. -/
def updateCompanyRelationRoute (rels : List CompanyRelation) (id : Nat)
    (ownershipPercentage : ℚ) : Except RelErr (List CompanyRelation) :=
  if ownershipPercentage = 0 ∨ ownershipPercentage < 1/100 ∨
      100 < ownershipPercentage then
    Except.error RelErr.validation
  else
    Except.ok (rels.map (fun r =>
      if r.id == id then { r with ownershipPercentage := ownershipPercentage }
      else r))

/-- The DELETE /api/company-relations/:id handler: unconditionally
deletes the relation with that id, with no organization check. -/
def deleteCompanyRelationRoute (rels : List CompanyRelation) (id : Nat) :
    List CompanyRelation :=
  rels.filter (fun r => !(r.id == id))

/-- storage.createUser: the default dashboardViewMode is total for
admins and weighted for every other role. -/
def createUserViewMode (role : Role) : ViewMode :=
  if role = Role.admin then ViewMode.total else ViewMode.weighted

/-- JavaScript Math.round: round half toward positive infinity. -/
def jsRound (x : ℚ) : ℤ := ⌊x + 1/2⌋

/-- Rounding to 2 decimal places as the source does at the reporting
boundary: Math.round of x*100, divided by 100. -/
def roundTo2 (x : ℚ) : ℚ := (jsRound (x * 100) : ℚ) / 100

/-- Stable insertion of one element into a list sorted descending by the
key, used to model the stable JavaScript Array sort by date-descending
comparator. -/
def insertDateDesc (key : α → Nat) (a : α) : List α → List α
  | [] => [a]
  | b :: l => if key a < key b then b :: insertDateDesc key a l else a :: b :: l

/-- Stable descending sort by a Nat key (the JavaScript sort with
comparator dateB - dateA is stable). -/
def sortDateDesc (key : α → Nat) : List α → List α
  | [] => []
  | a :: l => insertDateDesc key a (sortDateDesc key l)

/-- The dashboard statistics record returned by GET /api/dashboard/stats:
count, totalValue, latestProperty and the lease statistics (leaseCount
and totalRentCapacity, flattening the nested leaseStats object). -/
structure DashboardStats where
  count : ℚ
  totalValue : ℚ
  latestProperty : Option Property
  leaseCount : ℚ
  totalRentCapacity : ℚ
deriving DecidableEq, Repr

/-- storage.getPropertyStats (the unweighted, total view): raw count and
exact SQL sum of acquisition prices over the organization, the property
with the latest acquisition date, and the raw lease count and total
area over storage.getLeases with no userId. -/
def getPropertyStats (s : DBState) (organizationId : Nat) : DashboardStats :=
  let orgProperties := s.properties.filter (fun p => p.organizationId == organizationId)
  let allLeases := getLeases s organizationId none
  { count := (orgProperties.length : ℚ)
    totalValue := (orgProperties.map (fun p => p.acquisitionPrice)).sum
    latestProperty :=
      (sortDateDesc (fun p => p.acquisitionDate.getD 0) orgProperties).head?
    leaseCount := (allLeases.length : ℚ)
    totalRentCapacity := ((allLeases.map (fun l => l.1.totalArea)).sum : ℚ) }

/-- The relation list calculateWeightedStats works on: relations inner
joined with companies on parentCompanyId, restricted to the caller
organization. -/
def orgRelations (s : DBState) (organizationId : Nat) : List CompanyRelation :=
  s.companyRelations.filter (fun r =>
    s.companies.any (fun c =>
      c.id == r.parentCompanyId && c.organizationId == organizationId))

/-- The left join of a property with its owning company performed by
calculateWeightedStats. -/
def ownerJoin (s : DBState) (p : Property) : Option Company :=
  p.ownerCompanyId.bind (fun cid => s.companies.find? (fun c => c.id == cid))

/-- storage.calculateWeightedStats: falls back to getPropertyStats when
the user is missing or has no assigned company; returns zero statistics
when the organization has no properties; otherwise accumulates, over
every property whose owner join succeeded, the ownership weight from
the user root (Algorithm B over the organization relations) into the
weighted count and price times weight into the weighted value, picks
the latest property as the first date-descending property with positive
weight, accumulates the weighted lease statistics over the leases
visible to the user, and only then rounds: count and leaseCount to two
decimals, totalValue and totalRentCapacity to whole numbers.  The fuel
is the call-stack budget of Algorithm B. -/
def calculateWeightedStats (s : DBState) (organizationId userId fuel : Nat) :
    DashboardStats :=
  match getUser s userId with
  | none => getPropertyStats s organizationId
  | some user =>
    match user.assignedCompanyId with
    | none => getPropertyStats s organizationId
    | some root =>
      let allProperties :=
        (s.properties.filter (fun p => p.organizationId == organizationId)).map
          (fun p => (p, ownerJoin s p))
      if allProperties.length == 0 then
        { count := 0, totalValue := 0, latestProperty := none,
          leaseCount := 0, totalRentCapacity := 0 }
      else
        let allRelations := orgRelations s organizationId
        let totals :=
          allProperties.foldl
            (fun (acc : ℚ × ℚ) pc =>
              match pc.2 with
              | none => acc
              | some ownerCompany =>
                let ownershipWeight :=
                  calculateOwnershipFromRoot allRelations fuel root ownerCompany.id
                (acc.1 + ownershipWeight,
                 acc.2 + pc.1.acquisitionPrice * ownershipWeight))
            (0, 0)
        let sortedProperties :=
          sortDateDesc (fun pc => pc.1.acquisitionDate.getD 0) allProperties
        let latestProperty :=
          (sortedProperties.find? (fun pc =>
            match pc.2 with
            | none => false
            | some ownerCompany =>
              0 < calculateOwnershipFromRoot allRelations fuel root ownerCompany.id)).map
            (fun pc => pc.1)
        let allLeases := getLeases s organizationId (some userId)
        let leaseTotals :=
          allLeases.foldl
            (fun (acc : ℚ × ℚ) lp =>
              match (allProperties.find? (fun pc => pc.1.id == lp.1.propertyId)).bind
                  (fun pc => pc.2) with
              | none => acc
              | some ownerCompany =>
                let ownershipWeight :=
                  calculateOwnershipFromRoot allRelations fuel root ownerCompany.id
                if 0 < ownershipWeight then
                  (acc.1 + ownershipWeight,
                   acc.2 + (lp.1.totalArea : ℚ) * ownershipWeight)
                else acc)
            (0, 0)
        { count := roundTo2 totals.1
          totalValue := (jsRound totals.2 : ℚ)
          latestProperty := latestProperty
          leaseCount := roundTo2 leaseTotals.1
          totalRentCapacity := (jsRound leaseTotals.2 : ℚ) }

/-- The GET /api/dashboard/stats handler: weighted statistics when the
user dashboardViewMode is weighted, plain organization statistics
otherwise — the choice reads only the view mode, never the role. -/
def dashboardStatsRoute (s : DBState) (u : User) (fuel : Nat) : DashboardStats :=
  if u.dashboardViewMode = ViewMode.weighted then
    calculateWeightedStats s u.organizationId u.id fuel
  else
    getPropertyStats s u.organizationId

/-- Revisiting an already-visited company leaves the traversal state
unchanged, for every fuel (fuel zero also returns the state unchanged). -/
theorem traverseOwnership_visited (rels : List CompanyRelation)
    (fuel c : Nat) (w : ℚ) (s : TravState) (h : c ∈ s.1) :
    traverseOwnership rels fuel c w s = s := by
  cases fuel with
  | zero => rfl
  | succ n => simp [traverseOwnership, h]

/-- A fold whose step function only extends both components of the
traversal state extends both components. -/
theorem foldl_state_subset {α : Type} (f : TravState → α → TravState)
    (hf : ∀ t a, t.1 ⊆ (f t a).1 ∧ t.2 ⊆ (f t a).2) :
    ∀ (l : List α) (t : TravState),
      t.1 ⊆ (l.foldl f t).1 ∧ t.2 ⊆ (l.foldl f t).2 := by
  intro l
  induction l with
  | nil => intro t; exact ⟨List.Subset.refl _, List.Subset.refl _⟩
  | cons a l ih =>
    intro t
    refine ⟨?_, ?_⟩
    · exact (hf t a).1.trans (ih (f t a)).1
    · exact (hf t a).2.trans (ih (f t a)).2

/-- The traversal only ever extends the visited and accessible sets. -/
theorem traverseOwnership_subset (rels : List CompanyRelation) :
    ∀ (fuel c : Nat) (w : ℚ) (s : TravState),
      s.1 ⊆ (traverseOwnership rels fuel c w s).1 ∧
        s.2 ⊆ (traverseOwnership rels fuel c w s).2 := by
  intro fuel
  induction fuel with
  | zero => intro c w s; exact ⟨List.Subset.refl _, List.Subset.refl _⟩
  | succ n ih =>
    intro c w s
    by_cases h : c ∈ s.1
    · rw [traverseOwnership_visited rels _ _ _ _ h]
      exact ⟨List.Subset.refl _, List.Subset.refl _⟩
    · show s.1 ⊆ (traverseOwnership rels (n+1) c w s).1 ∧
        s.2 ⊆ (traverseOwnership rels (n+1) c w s).2
      simp only [traverseOwnership, h, if_false]
      have hsub :
          s.1 ⊆ (c :: s.1) ∧
            s.2 ⊆ (if 0 < w then c :: s.2 else s.2) := by
        constructor
        · exact List.subset_cons_self c s.1
        · by_cases hw : 0 < w
          · simp [hw, List.subset_cons_self]
          · simp [hw]
      have hfold := foldl_state_subset
        (fun t r => traverseOwnership rels n r.childCompanyId
          (w * r.ownershipPercentage / 100) t)
        (fun t r => ih r.childCompanyId (w * r.ownershipPercentage / 100) t)
        (getChildRelations rels c)
        ((c :: s.1, if 0 < w then c :: s.2 else s.2))
      exact ⟨hsub.1.trans hfold.1, hsub.2.trans hfold.2⟩

/-- The number of distinct child company ids not yet visited: the
decreasing measure of the visited-set traversal. -/
def unvisitedChildren (rels : List CompanyRelation) (v : List Nat) : Nat :=
  (((rels.map (fun r => r.childCompanyId)).dedup).filter
    (fun x => decide (x ∉ v))).length

/-- Filtering with a weaker predicate keeps at least as many elements. -/
theorem length_filter_mono {α : Type} (l : List α) (p q : α → Bool)
    (h : ∀ a ∈ l, p a = true → q a = true) :
    (l.filter p).length ≤ (l.filter q).length := by
  induction l with
  | nil => exact Nat.le_refl _
  | cons a t ih =>
    have ih' := ih (fun b hb hpb => h b (List.mem_cons_of_mem a hb) hpb)
    by_cases hp : p a = true
    · have hq := h a (List.mem_cons_self a t) hp
      simp only [List.filter_cons, hp, hq, if_true, List.length_cons]
      exact Nat.succ_le_succ ih'
    · have hp' : p a = false := by simpa using hp
      simp only [List.filter_cons, hp']
      cases hq : q a with
      | false => simpa using ih'
      | true =>
        simp only [if_true, List.length_cons]
        exact Nat.le_trans ih' (Nat.le_succ _)

/-- Filtering with a strictly weaker predicate, witnessed by a member
the stronger predicate drops, keeps strictly more elements. -/
theorem length_filter_lt {α : Type} (l : List α) (p q : α → Bool) (a : α)
    (ha : a ∈ l) (hpa : p a = false) (hqa : q a = true)
    (h : ∀ b ∈ l, p b = true → q b = true) :
    (l.filter p).length < (l.filter q).length := by
  induction l with
  | nil => cases ha
  | cons b t ih =>
    have hmono : ∀ c ∈ t, p c = true → q c = true :=
      fun c hc hpc => h c (List.mem_cons_of_mem b hc) hpc
    rcases List.mem_cons.mp ha with hab | hat
    · subst hab
      simp only [List.filter_cons, hpa, hqa, if_true, List.length_cons]
      exact Nat.lt_succ_of_le (length_filter_mono t p q hmono)
    · have ih' := ih hat hmono
      by_cases hp : p b = true
      · have hq := h b (List.mem_cons_self b t) hp
        simp only [List.filter_cons, hp, hq, if_true, List.length_cons]
        exact Nat.succ_lt_succ ih'
      · have hp' : p b = false := by simpa using hp
        simp only [List.filter_cons, hp']
        cases hq : q b with
        | false => simpa using ih'
        | true =>
          simp only [if_true, List.length_cons]
          exact Nat.lt_trans ih' (Nat.lt_succ_self _)

/-- Growing the visited set cannot increase the measure. -/
theorem unvisitedChildren_anti (rels : List CompanyRelation)
    {v v' : List Nat} (h : v ⊆ v') :
    unvisitedChildren rels v' ≤ unvisitedChildren rels v := by
  refine length_filter_mono _ _ _ ?_
  intro a _ hp
  simp only [decide_eq_true_eq] at hp ⊢
  exact fun hav => hp (h hav)

/-- Visiting an unvisited child company strictly decreases the measure. -/
theorem unvisitedChildren_cons_lt (rels : List CompanyRelation)
    {a : Nat} {v : List Nat}
    (hmem : a ∈ rels.map (fun r => r.childCompanyId)) (hnv : a ∉ v) :
    unvisitedChildren rels (a :: v) < unvisitedChildren rels v := by
  refine length_filter_lt _ _ _ a (List.mem_dedup.mpr hmem) ?_ ?_ ?_
  · simp
  · simpa using hnv
  · intro b _ hp
    simp only [decide_eq_true_eq, List.mem_cons] at hp ⊢
    exact fun hbv => hp (Or.inr hbv)

/-- Unfolding the traversal at an unvisited company: mark it visited,
record it when the weight is positive, and fold over its child
relations with one less fuel. -/
theorem traverseOwnership_cons (rels : List CompanyRelation)
    (fuel c : Nat) (w : ℚ) (s : TravState) (h : c ∉ s.1) :
    traverseOwnership rels (fuel+1) c w s =
      (getChildRelations rels c).foldl
        (fun t r =>
          traverseOwnership rels fuel r.childCompanyId
            (w * r.ownershipPercentage / 100) t)
        (c :: s.1, if 0 < w then c :: s.2 else s.2) := by
  simp [traverseOwnership, h]

/-- One step of the stabilisation argument, for the fold over the child
relations: when every state reached keeps at most n unvisited child
companies, running the children with fuel n and with fuel n+1 agree. -/
theorem foldl_traverse_succ (rels : List CompanyRelation) (n : Nat)
    (g : CompanyRelation → ℚ)
    (ih : ∀ (c : Nat) (w : ℚ) (s : TravState),
      c ∈ s.1 ∨ unvisitedChildren rels (c :: s.1) < n →
      traverseOwnership rels n c w s = traverseOwnership rels (n+1) c w s) :
    ∀ (L : List CompanyRelation), (∀ r ∈ L, r ∈ rels) →
    ∀ t : TravState, unvisitedChildren rels t.1 ≤ n →
      L.foldl (fun t r =>
        traverseOwnership rels n r.childCompanyId (g r) t) t =
      L.foldl (fun t r =>
        traverseOwnership rels (n+1) r.childCompanyId (g r) t) t := by
  intro L
  induction L with
  | nil => intro _ t _; rfl
  | cons r L ihL =>
    intro hL t ht
    have hr : r ∈ rels := hL r (List.mem_cons_self r L)
    have hstep : traverseOwnership rels n r.childCompanyId (g r) t =
        traverseOwnership rels (n+1) r.childCompanyId (g r) t := by
      by_cases hc : r.childCompanyId ∈ t.1
      · exact ih _ _ _ (Or.inl hc)
      · refine ih _ _ _ (Or.inr ?_)
        have hmem : r.childCompanyId ∈ rels.map (fun r => r.childCompanyId) :=
          List.mem_map_of_mem _ hr
        exact Nat.lt_of_lt_of_le (unvisitedChildren_cons_lt rels hmem hc) ht
    simp only [List.foldl_cons]
    rw [← hstep]
    refine ihL (fun r' hr' => hL r' (List.mem_cons_of_mem r hr')) _ ?_
    exact Nat.le_trans
      (unvisitedChildren_anti rels
        (traverseOwnership_subset rels n r.childCompanyId (g r) t).1)
      ht

/-- Stabilisation: once the fuel exceeds the number of unvisited child
companies (counting the current company), one more unit of fuel does
not change the traversal result. -/
theorem traverseOwnership_succ (rels : List CompanyRelation) :
    ∀ (fuel c : Nat) (w : ℚ) (s : TravState),
      c ∈ s.1 ∨ unvisitedChildren rels (c :: s.1) < fuel →
      traverseOwnership rels fuel c w s =
        traverseOwnership rels (fuel+1) c w s := by
  intro fuel
  induction fuel with
  | zero =>
    intro c w s h
    rcases h with h | h
    · rw [traverseOwnership_visited rels 0 c w s h,
        traverseOwnership_visited rels 1 c w s h]
    · exact absurd h (Nat.not_lt_zero _)
  | succ n ih =>
    intro c w s h
    by_cases hc : c ∈ s.1
    · rw [traverseOwnership_visited rels _ c w s hc,
        traverseOwnership_visited rels _ c w s hc]
    · have hU : unvisitedChildren rels (c :: s.1) < n + 1 := h.resolve_left hc
      rw [traverseOwnership_cons rels n c w s hc,
        traverseOwnership_cons rels (n+1) c w s hc]
      refine foldl_traverse_succ rels n
        (fun r => w * r.ownershipPercentage / 100) ih
        (getChildRelations rels c)
        (fun r hr => List.mem_of_mem_filter hr)
        (c :: s.1, if 0 < w then c :: s.2 else s.2) ?_
      exact Nat.le_of_lt_succ hU

/-- Stabilisation, iterated: adding any amount of fuel beyond a
sufficient budget does not change the traversal result. -/
theorem traverseOwnership_add (rels : List CompanyRelation)
    (fuel c : Nat) (w : ℚ) (s : TravState)
    (h : c ∈ s.1 ∨ unvisitedChildren rels (c :: s.1) < fuel) :
    ∀ k, traverseOwnership rels (fuel + k) c w s =
      traverseOwnership rels fuel c w s := by
  intro k
  induction k with
  | zero => rfl
  | succ m ihm =>
    have h' : c ∈ s.1 ∨ unvisitedChildren rels (c :: s.1) < fuel + m :=
      h.imp_right (fun hh => Nat.lt_of_lt_of_le hh (Nat.le_add_right _ _))
    have hstep := traverseOwnership_succ rels (fuel + m) c w s h'
    calc traverseOwnership rels (fuel + (m + 1)) c w s
        = traverseOwnership rels (fuel + m) c w s := hstep.symm
      _ = traverseOwnership rels fuel c w s := ihm

/-- With no visited companies, the measure is the number of distinct
child company ids. -/
theorem unvisitedChildren_nil (rels : List CompanyRelation) :
    unvisitedChildren rels [] =
      ((rels.map (fun r => r.childCompanyId)).dedup).length := by
  simp [unvisitedChildren]

/-- The root call of getAccessibleCompanyIds has a sufficient fuel
budget: the measure of the singleton visited set is below
traversalFuel. -/
theorem root_call_fuel (rels : List CompanyRelation) (root : Nat) :
    unvisitedChildren rels (root :: []) < traversalFuel rels := by
  have h1 : unvisitedChildren rels (root :: []) ≤ unvisitedChildren rels [] :=
    unvisitedChildren_anti rels (by intro x hx; cases hx)
  have h2 := unvisitedChildren_nil rels
  unfold traversalFuel
  omega

/-- The traversal root is always in the accessible set: the root starts
with ownership 100 > 0 and is recorded before any child is explored. -/
theorem self_mem_getAccessibleCompanyIds (rels : List CompanyRelation)
    (root : Nat) : root ∈ getAccessibleCompanyIds rels root := by
  unfold getAccessibleCompanyIds traversalFuel
  rw [traverseOwnership_cons rels _ root 100 ([], []) (by simp)]
  have hw : (0:ℚ) < 100 := by norm_num
  simp only [hw, if_true]
  have hsub := foldl_state_subset
    (fun t r =>
      traverseOwnership rels
        ((rels.map (fun r => r.childCompanyId)).dedup).length
        r.childCompanyId (100 * r.ownershipPercentage / 100) t)
    (fun t r => traverseOwnership_subset rels _ _ _ t)
    (getChildRelations rels root) ([root], [root])
  exact hsub.2 (List.mem_singleton.mpr rfl)

/-- The accessible set is never empty. -/
theorem getAccessibleCompanyIds_ne_nil (rels : List CompanyRelation)
    (root : Nat) : getAccessibleCompanyIds rels root ≠ [] := by
  intro h
  have := self_mem_getAccessibleCompanyIds rels root
  rw [h] at this
  cases this

/-- Characterisation of the property list a role user sees: exactly the
organization properties whose ownerCompanyId is a company in the
accessible set of the assigned root. -/
theorem mem_getProperties_user (s : DBState) (organizationId uid : Nat)
    (u : User) (root : Nat) (hu : getUser s uid = some u)
    (hroot : u.assignedCompanyId = some root) (p : Property) :
    p ∈ getProperties s organizationId (some uid) ↔
      p ∈ s.properties ∧ p.organizationId = organizationId ∧
        ∃ c, p.ownerCompanyId = some c ∧
          c ∈ getAccessibleCompanyIds s.companyRelations root := by
  simp only [getProperties, hu, hroot]
  have hne : ((getAccessibleCompanyIds s.companyRelations root).length == 0)
      = false := by
    simp only [beq_eq_false_iff_ne, ne_eq, List.length_eq_zero]
    exact getAccessibleCompanyIds_ne_nil s.companyRelations root
  simp only [hne, Bool.false_eq_true, if_false, List.mem_filter,
    Bool.and_eq_true, beq_iff_eq]
  constructor
  · rintro ⟨hp, horg, hown⟩
    refine ⟨hp, horg, ?_⟩
    cases hc : p.ownerCompanyId with
    | none => rw [hc] at hown; cases hown
    | some c =>
      rw [hc] at hown
      exact ⟨c, rfl, by simpa [List.contains] using hown⟩
  · rintro ⟨hp, horg, c, hc, hmem⟩
    refine ⟨hp, horg, ?_⟩
    rw [hc]
    simpa [List.contains] using hmem

/-- Characterisation of the joined lease list a role user sees. -/
theorem mem_getLeases_user (s : DBState) (organizationId uid : Nat)
    (u : User) (root : Nat) (hu : getUser s uid = some u)
    (hroot : u.assignedCompanyId = some root) (l : Lease) (pr : Property) :
    (l, pr) ∈ getLeases s organizationId (some uid) ↔
      l ∈ s.leases ∧ pr ∈ s.properties ∧ pr.id = l.propertyId ∧
        l.organizationId = organizationId ∧
        ∃ c, pr.ownerCompanyId = some c ∧
          c ∈ getAccessibleCompanyIds s.companyRelations root := by
  simp only [getLeases, hu, hroot]
  have hne : ((getAccessibleCompanyIds s.companyRelations root).length == 0)
      = false := by
    simp only [beq_eq_false_iff_ne, ne_eq, List.length_eq_zero]
    exact getAccessibleCompanyIds_ne_nil s.companyRelations root
  simp only [hne, Bool.false_eq_true, if_false, List.mem_flatMap,
    List.mem_map, List.mem_filter, Bool.and_eq_true, beq_iff_eq,
    Prod.mk.injEq]
  constructor
  · rintro ⟨l', hl', p', ⟨⟨hp', ⟨hid, horg⟩, hown⟩, hll, hpp⟩⟩
    subst hll
    subst hpp
    refine ⟨hl', hp', hid, horg, ?_⟩
    cases hc : p'.ownerCompanyId with
    | none => rw [hc] at hown; cases hown
    | some c =>
      rw [hc] at hown
      exact ⟨c, rfl, by simpa [List.contains] using hown⟩
  · rintro ⟨hl, hp, hid, horg, c, hc, hmem⟩
    refine ⟨l, hl, pr, ⟨⟨hp, ⟨hid, horg⟩, ?_⟩, rfl, rfl⟩⟩
    rw [hc]
    simpa [List.contains] using hmem

/-- C9: Algorithm A (getAccessibleCompanyIds) terminates on every finite
relation graph, including graphs that contain cycles: since the visited
set lets each company be visited at most once and a revisit ends that
branch without error, the traversal stabilises — for every relation
list and every root, any call-stack budget of at least traversalFuel
produces the same accessible set, which is the value
getAccessibleCompanyIds returns. -/
theorem C9_terminates (rels : List CompanyRelation) (root fuel : Nat)
    (h : traversalFuel rels ≤ fuel) :
    (traverseOwnership rels fuel root 100 ([], [])).2 =
      getAccessibleCompanyIds rels root := by
  obtain ⟨k, rfl⟩ := Nat.exists_eq_add_of_le h
  unfold getAccessibleCompanyIds
  rw [traverseOwnership_add rels (traversalFuel rels) root 100 ([], [])
    (Or.inr (root_call_fuel rels root)) k]

/-- Witness for C9 on a concrete cyclic graph: companies 1 and 2 own
half of each other, and extra fuel beyond the bound changes nothing. -/
theorem C9_terminates_witness :
    traversalFuel
        [{ id := 10, parentCompanyId := 1, childCompanyId := 2,
           ownershipPercentage := 50 },
         { id := 11, parentCompanyId := 2, childCompanyId := 1,
           ownershipPercentage := 50 }] ≤ 9 ∧
      (traverseOwnership
        [{ id := 10, parentCompanyId := 1, childCompanyId := 2,
           ownershipPercentage := 50 },
         { id := 11, parentCompanyId := 2, childCompanyId := 1,
           ownershipPercentage := 50 }] 9 1 100 ([], [])).2 =
        getAccessibleCompanyIds
          [{ id := 10, parentCompanyId := 1, childCompanyId := 2,
             ownershipPercentage := 50 },
           { id := 11, parentCompanyId := 2, childCompanyId := 1,
             ownershipPercentage := 50 }] 1 := by
  refine ⟨by decide, ?_⟩
  exact C9_terminates _ 1 9 (by decide)

/-- C10: the accessible set of a root always contains the root itself
(the traversal starts it with weight 100 > 0), so a role user assigned
company R always sees the properties R owns directly, even when R has
no ownership relations at all. -/
theorem C10_root_self_access :
    (∀ (rels : List CompanyRelation) (root : Nat),
      root ∈ getAccessibleCompanyIds rels root) ∧
    (∀ (s : DBState) (u : User) (root : Nat) (p : Property),
      u.role = Role.user → getUser s u.id = some u →
      u.assignedCompanyId = some root →
      p ∈ s.properties → p.organizationId = u.organizationId →
      p.ownerCompanyId = some root →
      p ∈ getPropertiesRoute s u) := by
  refine ⟨fun rels root => self_mem_getAccessibleCompanyIds rels root, ?_⟩
  intro s u root p hrole hu hroot hp horg hown
  have hnotadmin : ¬(u.role = Role.admin ∨ u.role = Role.broker) := by
    rw [hrole]; rintro (h | h) <;> cases h
  unfold getPropertiesRoute
  rw [if_neg hnotadmin]
  exact (mem_getProperties_user s u.organizationId u.id u root hu hroot p).mpr
    ⟨hp, horg, root, hown, self_mem_getAccessibleCompanyIds s.companyRelations root⟩

/-- A concrete role user assigned to company 1. -/
def sampleUser : User :=
  { id := 7, organizationId := 1, role := Role.user,
    assignedCompanyId := some 1, dashboardViewMode := ViewMode.weighted }

/-- A concrete property owned directly by company 1. -/
def sampleProperty : Property :=
  { id := 100, ownerCompanyId := some 1, organizationId := 1,
    acquisitionPrice := 1000, acquisitionDate := some 20240101 }

/-- A concrete store holding the sample user and property, with no
ownership relations. -/
def sampleState : DBState :=
  { users := [sampleUser], companies := [{ id := 1, organizationId := 1 }],
    companyRelations := [], properties := [sampleProperty], leases := [] }

/-- Witness for C10: company 1 reaches itself with no relations, and the
sample user sees the sample property. -/
theorem C10_root_self_access_witness :
    1 ∈ getAccessibleCompanyIds [] 1 ∧
      sampleProperty ∈ getPropertiesRoute sampleState sampleUser := by
  refine ⟨C10_root_self_access.1 [] 1, ?_⟩
  exact C10_root_self_access.2 sampleState sampleUser 1 sampleProperty rfl
    (by decide) rfl (by decide) rfl rfl

/-- C3: for a role user, the listings are empty when the user has no
assigned company; otherwise a property is visible iff its
ownerCompanyId is non-null and lies in the positive-weight accessible
set of the assigned root (so null-owner properties are never visible),
and a lease whose organization agrees with its property is visible iff
its property is visible. -/
theorem C3_user_visibility (s : DBState) (organizationId uid : Nat)
    (u : User) (hu : getUser s uid = some u) :
    (u.assignedCompanyId = none →
      getProperties s organizationId (some uid) = [] ∧
        getLeases s organizationId (some uid) = []) ∧
    (∀ root, u.assignedCompanyId = some root →
      (∀ p : Property, p ∈ getProperties s organizationId (some uid) ↔
        p ∈ s.properties ∧ p.organizationId = organizationId ∧
          ∃ c, p.ownerCompanyId = some c ∧
            c ∈ getAccessibleCompanyIds s.companyRelations root) ∧
      (∀ p : Property, p.ownerCompanyId = none →
        p ∉ getProperties s organizationId (some uid)) ∧
      (∀ (l : Lease) (pr : Property), l ∈ s.leases → pr ∈ s.properties →
        pr.id = l.propertyId → l.organizationId = pr.organizationId →
        ((l, pr) ∈ getLeases s organizationId (some uid) ↔
          pr ∈ getProperties s organizationId (some uid)))) := by
  constructor
  · intro hnone
    constructor
    · simp [getProperties, hu, hnone]
    · simp [getLeases, hu, hnone]
  · intro root hroot
    refine ⟨fun p => mem_getProperties_user s organizationId uid u root hu hroot p,
      ?_, ?_⟩
    · intro p hpnone hmem
      rw [mem_getProperties_user s organizationId uid u root hu hroot p] at hmem
      obtain ⟨_, _, c, hc, _⟩ := hmem
      rw [hpnone] at hc
      cases hc
    · intro l pr hl hpr hid horg
      rw [mem_getLeases_user s organizationId uid u root hu hroot l pr,
        mem_getProperties_user s organizationId uid u root hu hroot pr]
      constructor
      · rintro ⟨_, hp, _, horg2, hc⟩
        exact ⟨hp, by rw [← horg]; exact horg2, hc⟩
      · rintro ⟨hp, horg2, hc⟩
        exact ⟨hl, hp, hid, by rw [horg]; exact horg2, hc⟩

/-- Witness for C3: in the sample store, the sample property is visible
to the sample user through the characterisation. -/
theorem C3_user_visibility_witness :
    sampleProperty ∈ getProperties sampleState 1 (some 7) := by
  refine (((C3_user_visibility sampleState 1 7 sampleUser (by decide)).2 1
    rfl).1 sampleProperty).mpr ?_
  exact ⟨by decide, rfl, 1, rfl, by decide⟩

/-- Unfolding Algorithm B one level when root and target differ. -/
theorem calculateOwnershipFromRoot_succ (rels : List CompanyRelation)
    (fuel root target : Nat) (h : root ≠ target) :
    calculateOwnershipFromRoot rels (fuel+1) root target =
      ((rels.filter (fun r => r.parentCompanyId == root)).map
        (fun r =>
          if r.childCompanyId == target then r.ownershipPercentage / 100
          else
            r.ownershipPercentage / 100 *
              calculateOwnershipFromRoot rels fuel r.childCompanyId target)).sum := by
  rw [calculateOwnershipFromRoot]
  simp [h]

/-- The chain graph of spec scenario 1: company 1 owns 60% of 2, and 2
owns 50% of 3. -/
def chainRels : List CompanyRelation :=
  [{ id := 20, parentCompanyId := 1, childCompanyId := 2,
     ownershipPercentage := 60 },
   { id := 21, parentCompanyId := 2, childCompanyId := 3,
     ownershipPercentage := 50 }]

/-- The diamond graph of spec scenario 2: company 1 owns 60% of 3
directly and 40% of 2, and 2 owns 100% of 3. -/
def diamondRels : List CompanyRelation :=
  [{ id := 30, parentCompanyId := 1, childCompanyId := 3,
     ownershipPercentage := 60 },
   { id := 31, parentCompanyId := 1, childCompanyId := 2,
     ownershipPercentage := 40 },
   { id := 32, parentCompanyId := 2, childCompanyId := 3,
     ownershipPercentage := 100 }]

/-- C2: Algorithm B (calculateOwnershipFromRoot) is the sum-over-paths
weight: it returns exactly 1 whenever root = target, for every relation
list and every call-stack budget; on the chain where company 1 owns 60%
of 2 and 2 owns 50% of 3 it returns 0.30 from 1 to 3; and on the
diamond where 1 owns 60% of 3 directly plus 40% of 2 which owns 100% of
3 it returns 1.00 from 1 to 3 (any budget of at least 2 runs these
acyclic graphs to completion). -/
theorem C2_weight_scenarios :
    (∀ (rels : List CompanyRelation) (fuel x : Nat),
      calculateOwnershipFromRoot rels fuel x x = 1) ∧
    (∀ fuel, 2 ≤ fuel →
      calculateOwnershipFromRoot chainRels fuel 1 3 = 3/10) ∧
    (∀ fuel, 2 ≤ fuel →
      calculateOwnershipFromRoot diamondRels fuel 1 3 = 1) := by
  refine ⟨?_, ?_, ?_⟩
  · intro rels fuel x
    unfold calculateOwnershipFromRoot
    simp
  · intro fuel h
    obtain ⟨k, rfl⟩ : ∃ k, fuel = k + 2 := ⟨fuel - 2, by omega⟩
    have h23 : calculateOwnershipFromRoot chainRels (k+1) 2 3 = 1/2 := by
      rw [calculateOwnershipFromRoot_succ chainRels k 2 3 (by decide)]
      norm_num [chainRels]
    show calculateOwnershipFromRoot chainRels ((k+1)+1) 1 3 = 3/10
    rw [calculateOwnershipFromRoot_succ chainRels (k+1) 1 3 (by decide)]
    simp only [chainRels] at h23
    norm_num [chainRels, h23]
  · intro fuel h
    obtain ⟨k, rfl⟩ : ∃ k, fuel = k + 2 := ⟨fuel - 2, by omega⟩
    have h23 : calculateOwnershipFromRoot diamondRels (k+1) 2 3 = 1 := by
      rw [calculateOwnershipFromRoot_succ diamondRels k 2 3 (by decide)]
      norm_num [diamondRels]
    show calculateOwnershipFromRoot diamondRels ((k+1)+1) 1 3 = 1
    rw [calculateOwnershipFromRoot_succ diamondRels (k+1) 1 3 (by decide)]
    simp only [diamondRels] at h23
    norm_num [diamondRels, h23]

/-- Witness for C2 at concrete inputs: the self case at budget 0 and the
two scenarios at budget 2. -/
theorem C2_weight_scenarios_witness :
    calculateOwnershipFromRoot [] 0 5 5 = 1 ∧
      calculateOwnershipFromRoot chainRels 2 1 3 = 3/10 ∧
      calculateOwnershipFromRoot diamondRels 2 1 3 = 1 :=
  ⟨C2_weight_scenarios.1 [] 0 5,
   C2_weight_scenarios.2.1 2 (by decide),
   C2_weight_scenarios.2.2 2 (by decide)⟩

/-- An ongoing tenancy for lease 1 which started 2023-01-01. -/
def ongoingTenant : LeaseTenantRec :=
  { leaseId := 1, tenantId := 1, periodStart := 20230101, periodEnd := none }

/-- A candidate tenancy for lease 1 lying entirely beyond the
2099-12-31 sentinel. -/
def farFutureTenant : LeaseTenantRec :=
  { leaseId := 1, tenantId := 2, periodStart := 21000101,
    periodEnd := some 21001231 }

/-- Counterexample to C4 as stated: against the open-ended tenancy,
createLeaseTenant accepts a candidate whose period starts after the
2099-12-31 sentinel even though that period does not lie before the
existing periodStart. -/
theorem C4_sentinel_counterexample :
    createLeaseTenant [ongoingTenant] 20250601 farFutureTenant =
        Except.ok [ongoingTenant, farFutureTenant] ∧
      ¬ farFutureTenant.periodEnd.getD sentinelDate < ongoingTenant.periodStart := by
  constructor
  · rfl
  · decide

/-- C4 (amended): createLeaseTenant fails with the overlap ConflictError
exactly when the candidate overlaps some existing record of the same
lease under the sentinel reading of open ends; consequently, against an
open-ended existing tenancy a candidate is accepted only if its period
(open end read as the sentinel 2099-12-31) ends before the existing
periodStart, or the candidate starts after the sentinel date. -/
theorem C4_overlap_rejection (db : List LeaseTenantRec) (today : Nat)
    (cand : LeaseTenantRec) :
    (createLeaseTenant db today cand = Except.error overlapMsg ↔
      ∃ e ∈ db, e.leaseId = cand.leaseId ∧
        cand.periodStart ≤ e.periodEnd.getD sentinelDate ∧
        e.periodStart ≤ cand.periodEnd.getD sentinelDate) ∧
    (∀ e ∈ db, e.leaseId = cand.leaseId → e.periodEnd = none →
      ∀ db', createLeaseTenant db today cand = Except.ok db' →
        cand.periodEnd.getD sentinelDate < e.periodStart ∨
          sentinelDate < cand.periodStart) := by
  constructor
  · unfold createLeaseTenant
    by_cases hov : (db.filter (fun t => t.leaseId == cand.leaseId)).any
        (fun existing => overlapsB cand existing) = true
    · simp only [hov, if_true]
      constructor
      · intro _
        obtain ⟨e, he, hob⟩ := List.any_eq_true.mp hov
        obtain ⟨hedb, hel⟩ := List.mem_filter.mp he
        refine ⟨e, hedb, by simpa using hel, ?_⟩
        have := hob
        unfold overlapsB at this
        simp only [Bool.and_eq_true, decide_eq_true_eq] at this
        exact ⟨this.1, this.2⟩
      · intro _; trivial
    · simp only [hov, Bool.false_eq_true, if_false]
      constructor
      · intro h
        by_cases hact : (isActiveB today cand &&
            decide (0 < (List.filter (fun t => isActiveB today t)
              (db.filter (fun t => t.leaseId == cand.leaseId))).length)) = true
        · rw [if_pos hact] at h
          exact absurd (Except.error.inj h) (by decide)
        · rw [if_neg hact] at h
          cases h
      · rintro ⟨e, hedb, hel, h1, h2⟩
        exfalso
        apply hov
        refine List.any_eq_true.mpr ⟨e, List.mem_filter.mpr ⟨hedb, by simpa using hel⟩, ?_⟩
        unfold overlapsB
        simp only [Bool.and_eq_true, decide_eq_true_eq]
        exact ⟨h1, h2⟩
  · intro e hedb hel hopen db' hok
    unfold createLeaseTenant at hok
    by_cases hov : (db.filter (fun t => t.leaseId == cand.leaseId)).any
        (fun existing => overlapsB cand existing) = true
    · rw [if_pos hov] at hok; cases hok
    · have hne : overlapsB cand e = false := by
        by_contra hcon
        apply hov
        refine List.any_eq_true.mpr ⟨e,
          List.mem_filter.mpr ⟨hedb, by simpa using hel⟩, ?_⟩
        simpa using hcon
      unfold overlapsB at hne
      rw [hopen] at hne
      simp only [Option.getD, Bool.and_eq_false_iff, decide_eq_false_iff_not,
        not_le] at hne
      rcases hne with h | h
      · exact Or.inr h
      · exact Or.inl h

/-- Witness for C4 (amended): an overlapping candidate is rejected with
the overlap message, and the far-future acceptance satisfies the
amended disjunction. -/
theorem C4_overlap_rejection_witness :
    createLeaseTenant [ongoingTenant] 20250601
        { leaseId := 1, tenantId := 2, periodStart := 20240101,
          periodEnd := some 20241231 } = Except.error overlapMsg ∧
      (farFutureTenant.periodEnd.getD sentinelDate < ongoingTenant.periodStart ∨
        sentinelDate < farFutureTenant.periodStart) := by
  constructor
  · exact (C4_overlap_rejection [ongoingTenant] 20250601
      { leaseId := 1, tenantId := 2, periodStart := 20240101,
        periodEnd := some 20241231 }).1.mpr
      ⟨ongoingTenant, by decide, rfl, by decide, by decide⟩
  · exact (C4_overlap_rejection [ongoingTenant] 20250601 farFutureTenant).2
      ongoingTenant (by decide) rfl rfl [ongoingTenant, farFutureTenant] (by rfl)

/-- A candidate tenancy for lease 1 whose period contains 2025-06-01. -/
def activeCandidate : LeaseTenantRec :=
  { leaseId := 1, tenantId := 2, periodStart := 20250101, periodEnd := none }

/-- Counterexample to C5 as stated: with the ongoing tenancy active and
an active candidate, createLeaseTenant fails with the overlap message,
not the active-tenant message the claim names. -/
theorem C5_message_counterexample :
    isActiveB 20250601 activeCandidate = true ∧
      isActiveB 20250601 ongoingTenant = true ∧
      createLeaseTenant [ongoingTenant] 20250601 activeCandidate =
        Except.error overlapMsg ∧
      overlapMsg ≠ activeMsg :=
  ⟨rfl, rfl, rfl, by decide⟩

/-- C5 (amended): when today is not beyond the 2099-12-31 sentinel, a
candidate whose period contains today always overlaps any existing
record whose period contains today, so createLeaseTenant fails with the
overlap ConflictError — the active-tenant message is shadowed by the
overlap check that runs first. -/
theorem C5_active_shadowed (db : List LeaseTenantRec) (today : Nat)
    (cand : LeaseTenantRec) (htoday : today ≤ sentinelDate)
    (hcand : isActiveB today cand = true) (e : LeaseTenantRec)
    (he : e ∈ db) (hel : e.leaseId = cand.leaseId)
    (hact : isActiveB today e = true) :
    createLeaseTenant db today cand = Except.error overlapMsg := by
  have hov : (db.filter (fun t => t.leaseId == cand.leaseId)).any
      (fun existing => overlapsB cand existing) = true := by
    refine List.any_eq_true.mpr ⟨e, List.mem_filter.mpr ⟨he, by simpa using hel⟩, ?_⟩
    unfold overlapsB
    unfold isActiveB at hcand hact
    simp only [Bool.and_eq_true, decide_eq_true_eq] at hcand hact ⊢
    obtain ⟨hcs, hce⟩ := hcand
    obtain ⟨hes, hee⟩ := hact
    constructor
    · cases heq : e.periodEnd with
      | none => simpa [heq] using le_trans hcs htoday
      | some d =>
        rw [heq] at hee
        simp only [decide_eq_true_eq] at hee
        simpa [heq] using le_trans hcs hee
    · cases heq : cand.periodEnd with
      | none => simpa [heq] using le_trans hes htoday
      | some d =>
        rw [heq] at hce
        simp only [decide_eq_true_eq] at hce
        simpa [heq] using le_trans hes hce
  simp only [createLeaseTenant]
  rw [if_pos hov]

/-- Witness for C5 (amended) at the concrete active pair. -/
theorem C5_active_shadowed_witness :
    20250601 ≤ sentinelDate ∧
      createLeaseTenant [ongoingTenant] 20250601 activeCandidate =
        Except.error overlapMsg :=
  ⟨by decide, C5_active_shadowed [ongoingTenant] 20250601 activeCandidate
    (by decide) rfl ongoingTenant (by decide) rfl rfl⟩

/-- Appending one relation adds its percentage to its child's incoming
total and leaves every other child total unchanged. -/
theorem childSum_append (rels : List CompanyRelation) (r : CompanyRelation)
    (x : Nat) :
    childSum (rels ++ [r]) x =
      childSum rels x +
        (if r.childCompanyId = x then r.ownershipPercentage else 0) := by
  unfold childSum getParentRelations
  rw [List.filter_append]
  by_cases h : r.childCompanyId = x
  · simp [h]
  · simp [h]

/-- The organization whose companies 1, 2 and 3 the C1 counterexample
uses. -/
def c1State0 : DBState :=
  { users := [], companies := [⟨1, 1⟩, ⟨2, 1⟩, ⟨3, 1⟩],
    companyRelations := [], properties := [], leases := [] }

/-- Relation 10: company 1 owns 60% of company 3. -/
def rel60 : CompanyRelation := ⟨10, 1, 3, 60⟩

/-- Relation 11: company 2 owns 40% of company 3. -/
def rel40 : CompanyRelation := ⟨11, 2, 3, 40⟩

/-- Relation 10 after the accepted update to 100%. -/
def rel100 : CompanyRelation := ⟨10, 1, 3, 100⟩

/-- The same organization after the first accepted create. -/
def c1State1 : DBState :=
  { c1State0 with companyRelations := [rel60] }

/-- Counterexample to C1 as stated: two accepted creates bring company
3 to a 100% incoming total, and an accepted update of the first
relation to 100% raises the total to 140% — the update is accepted
because PUT /api/company-relations/:id never re-validates the bound. -/
theorem C1_update_counterexample :
    createCompanyRelationRoute c1State0 1 1 3 60 10 = Except.ok [rel60] ∧
      createCompanyRelationRoute c1State1 1 2 3 40 11 =
        Except.ok [rel60, rel40] ∧
      updateCompanyRelationRoute [rel60, rel40] 10 100 =
        Except.ok [rel100, rel40] ∧
      ¬ childSum [rel100, rel40] 3 ≤ 100 := by
  refine ⟨?_, ?_, ?_, ?_⟩
  · norm_num [createCompanyRelationRoute, c1State0, getCompany, childSum,
      getParentRelations, rel60]
  · norm_num [createCompanyRelationRoute, c1State0, c1State1, getCompany,
      childSum, getParentRelations, rel60, rel40]
  · norm_num [updateCompanyRelationRoute, rel60, rel40, rel100]
  · norm_num [childSum, getParentRelations, List.filter, rel100, rel40]

/-- C1 (amended): an accepted create preserves the 100% bound on every
child total; a delete can only lower child totals (percentages being
nonnegative); but an update is accepted exactly when the new percentage
lies in 0.01..100, independently of the other relations of the child,
so the bound is not re-validated on update and an accepted update can
break it. -/
theorem C1_invariant_create_delete_not_update :
    (∀ (s : DBState) (organizationId parent child : Nat) (pct : ℚ)
        (newId : Nat) (rels' : List CompanyRelation),
      (∀ x, childSum s.companyRelations x ≤ 100) →
      createCompanyRelationRoute s organizationId parent child pct newId =
        Except.ok rels' →
      ∀ x, childSum rels' x ≤ 100) ∧
    (∀ (rels : List CompanyRelation) (id : Nat),
      (∀ r ∈ rels, 0 ≤ r.ownershipPercentage) →
      ∀ x, childSum (deleteCompanyRelationRoute rels id) x ≤ childSum rels x) ∧
    (∀ (rels : List CompanyRelation) (id : Nat) (pct : ℚ),
      (∃ rels', updateCompanyRelationRoute rels id pct = Except.ok rels') ↔
        (1/100 ≤ pct ∧ pct ≤ 100)) := by
  refine ⟨?_, ?_, ?_⟩
  · intro s organizationId parent child pct newId rels' hinv hok x
    unfold createCompanyRelationRoute at hok
    by_cases hr : pct < 1/100 ∨ 100 < pct
    · rw [if_pos hr] at hok; cases hok
    · rw [if_neg hr] at hok
      cases hp : getCompany s parent organizationId with
      | none => rw [hp] at hok; cases hok
      | some cp =>
        cases hc : getCompany s child organizationId with
        | none => rw [hp, hc] at hok; cases hok
        | some cc =>
          rw [hp, hc] at hok
          by_cases hover : 100 < childSum s.companyRelations child + pct
          · rw [if_pos hover] at hok; cases hok
          · rw [if_neg hover] at hok
            have hrels' := (Except.ok.inj hok).symm
            rw [hrels', childSum_append]
            by_cases hx : child = x
            · subst hx
              simp only [if_pos rfl]
              exact le_of_not_lt hover
            · rw [if_neg (fun h => hx h)]
              simpa using hinv x
  · intro rels id hnn x
    unfold childSum getParentRelations deleteCompanyRelationRoute
    have hsub : ((rels.filter (fun r => !(r.id == id))).filter
        (fun r => r.childCompanyId == x)).Sublist
        (rels.filter (fun r => r.childCompanyId == x)) :=
      List.Sublist.filter _ (List.filter_sublist rels)
    refine List.Sublist.sum_le_sum (List.Sublist.map _ hsub) ?_
    intro a ha
    obtain ⟨r, hr, hra⟩ := List.mem_map.mp ha
    rw [← hra]
    exact hnn r (List.mem_of_mem_filter hr)
  · intro rels id pct
    constructor
    · rintro ⟨rels', h⟩
      unfold updateCompanyRelationRoute at h
      by_cases hcond : pct = 0 ∨ pct < 1/100 ∨ 100 < pct
      · rw [if_pos hcond] at h; cases h
      · push_neg at hcond
        exact ⟨hcond.2.1, hcond.2.2⟩
    · rintro ⟨h1, h2⟩
      refine ⟨rels.map (fun r =>
        if r.id == id then { r with ownershipPercentage := pct } else r), ?_⟩
      unfold updateCompanyRelationRoute
      rw [if_neg ?_]
      push_neg
      refine ⟨?_, h1, h2⟩
      intro h0
      rw [h0] at h1
      norm_num at h1

/-- Witness for C1 (amended) on concrete inputs: the first create of the
counterexample preserves every child total, deleting from the resulting
relation list does not raise the total of company 3, and the update
acceptance condition holds at percentage 50. -/
theorem C1_invariant_witness :
    (∀ x, childSum [rel60] x ≤ 100) ∧
      childSum (deleteCompanyRelationRoute [rel60] 10) 3 ≤
        childSum [rel60] 3 ∧
      (∃ rels', updateCompanyRelationRoute [rel60] 10 (50:ℚ) =
        Except.ok rels') := by
  refine ⟨?_, ?_, ?_⟩
  · exact C1_invariant_create_delete_not_update.1 c1State0 1 1 3 60 10 _
      (fun x => by norm_num [c1State0, childSum, getParentRelations])
      (by norm_num [createCompanyRelationRoute, c1State0, getCompany, childSum,
        getParentRelations, rel60])
  · exact C1_invariant_create_delete_not_update.2.1 _ 10
      (by intro r hr; fin_cases hr; norm_num [rel60]) 3
  · exact (C1_invariant_create_delete_not_update.2.2 _ 10 50).mpr
      (by norm_num)

/-- A relation belonging to organization 2: its parent company 2 and
child company 3 are org-2 companies. -/
def foreignRel : CompanyRelation := ⟨77, 12, 13, 50⟩

/-- C7 evaluation at the failing input: the PUT and DELETE
company-relation handlers receive no organization at all — the storage
calls they make filter by relation id only — so a caller from
organization 1 updating or deleting relation 77 of organization 2
succeeds with 200 and mutates the foreign relation, instead of
surfacing NotFound and leaving it unchanged. -/
theorem C7_cross_tenant_mutation :
    updateCompanyRelationRoute [foreignRel] 77 80 =
        Except.ok [⟨77, 12, 13, 80⟩] ∧
      deleteCompanyRelationRoute [foreignRel] 77 = [] := by
  constructor
  · norm_num [updateCompanyRelationRoute, foreignRel]
  · norm_num [deleteCompanyRelationRoute, foreignRel, List.filter]

/-- A broker in organization 1, assigned to company 1, holding the
weighted view mode createUser gives every non-admin. -/
def brokerUser : User := ⟨9, 1, Role.broker, some 1, ViewMode.weighted⟩

/-- A property of organization 1 owned by company 2, which the broker
root company 1 does not own at all. -/
def c8Property : Property := ⟨200, some 2, 1, 1000, some 20240101⟩

/-- The store of the C8 counterexample. -/
def c8State : DBState :=
  { users := [brokerUser], companies := [⟨1, 1⟩, ⟨2, 1⟩],
    companyRelations := [], properties := [c8Property], leases := [] }

/-- Counterexample to C8 as stated: a broker created by createUser
defaults to the weighted view mode, the dashboard route then serves
that broker calculateWeightedStats, and on the concrete store the
weighted statistics differ from the unweighted total statistics — so a
broker does receive weighted dashboard data. -/
theorem C8_broker_weighted_counterexample :
    createUserViewMode brokerUser.role = ViewMode.weighted ∧
      dashboardStatsRoute c8State brokerUser 5 =
        calculateWeightedStats c8State brokerUser.organizationId
          brokerUser.id 5 ∧
      calculateWeightedStats c8State 1 9 5 ≠ getPropertyStats c8State 1 := by
  refine ⟨rfl, rfl, ?_⟩
  intro h
  have hc := congrArg DashboardStats.count h
  norm_num [calculateWeightedStats, getPropertyStats, getUser, c8State,
    brokerUser, c8Property, ownerJoin, orgRelations, getLeases,
    calculateOwnershipFromRoot, roundTo2, jsRound, sortDateDesc,
    insertDateDesc, List.filter, List.find?,
    show ((1:Nat) == 2) = false from rfl,
    show ((2:Nat) == 2) = true from rfl,
    show ((1:Nat) == 1) = true from rfl] at hc

/-- C8 (amended): the dashboard stats route chooses weighted against
total statistics solely from dashboardViewMode — the role is never
consulted — and createUser defaults every broker to the weighted mode,
so a broker whose mode is weighted receives the weighted computation. -/
theorem C8_broker_dashboard (s : DBState) (u : User) (fuel : Nat)
    (hrole : u.role = Role.broker) :
    createUserViewMode u.role = ViewMode.weighted ∧
      dashboardStatsRoute s u fuel =
        (if u.dashboardViewMode = ViewMode.weighted then
          calculateWeightedStats s u.organizationId u.id fuel
        else getPropertyStats s u.organizationId) := by
  constructor
  · rw [hrole]; rfl
  · rfl

/-- Witness for C8 (amended) at the concrete broker. -/
theorem C8_broker_dashboard_witness :
    createUserViewMode brokerUser.role = ViewMode.weighted ∧
      dashboardStatsRoute c8State brokerUser 5 =
        (if brokerUser.dashboardViewMode = ViewMode.weighted then
          calculateWeightedStats c8State brokerUser.organizationId
            brokerUser.id 5
        else getPropertyStats c8State brokerUser.organizationId) :=
  C8_broker_dashboard c8State brokerUser 5 rfl

/-- The accumulation loop of calculateWeightedStats equals the sum over
the property list: skipped null-owner entries contribute zero to both
the weighted count and the weighted value. -/
theorem weightedFold (g : Nat → ℚ) (L : List (Property × Option Company)) :
    ∀ (a b : ℚ),
      L.foldl (fun (acc : ℚ × ℚ) pc =>
        match pc.2 with
        | none => acc
        | some ownerCompany =>
          (acc.1 + g ownerCompany.id,
           acc.2 + pc.1.acquisitionPrice * g ownerCompany.id)) (a, b) =
      (a + (L.map (fun pc =>
        match pc.2 with
        | none => (0:ℚ)
        | some oc => g oc.id)).sum,
       b + (L.map (fun pc => pc.1.acquisitionPrice *
        match pc.2 with
        | none => (0:ℚ)
        | some oc => g oc.id)).sum) := by
  induction L with
  | nil => intro a b; simp
  | cons pc L ih =>
    intro a b
    cases hoc : pc.2 with
    | none =>
      simp only [List.foldl_cons, List.map_cons, List.sum_cons, hoc]
      rw [ih a b]
      refine Prod.ext ?_ ?_ <;> simp
    | some oc =>
      simp only [List.foldl_cons, List.map_cons, List.sum_cons, hoc]
      rw [ih (a + g oc.id) (b + pc.1.acquisitionPrice * g oc.id)]
      refine Prod.ext ?_ ?_ <;> simp <;> ring

/-- Under referential integrity of property owners, the owner join of a
property resolves exactly its ownerCompanyId, so any weight read off
the joined company equals the weight of the stored owner id. -/
theorem ownerJoin_weight (s : DBState) (g : Nat → ℚ) (p : Property)
    (hp : p ∈ s.properties)
    (hri : ∀ p ∈ s.properties, ∀ cid, p.ownerCompanyId = some cid →
      ∃ c ∈ s.companies, c.id = cid) :
    (match ownerJoin s p with
      | none => (0:ℚ)
      | some oc => g oc.id) =
      (match p.ownerCompanyId with
        | none => (0:ℚ)
        | some cid => g cid) := by
  cases hown : p.ownerCompanyId with
  | none => simp [ownerJoin, hown]
  | some cid =>
    obtain ⟨c, hc, hcid⟩ := hri p hp cid hown
    have hsome : (s.companies.find? (fun c => c.id == cid)).isSome := by
      rw [List.find?_isSome]
      exact ⟨c, hc, by simp [hcid]⟩
    obtain ⟨oc, hoc⟩ := Option.isSome_iff_exists.mp hsome
    have hocid : oc.id = cid := by
      have := List.find?_some hoc
      simpa using this
    simp [ownerJoin, hown, hoc, hocid]

/-- C6 (amended): for a weighted-view user with an assigned root, under
referential integrity of property owners, the reported count is the sum
of path weights over the organization properties with a non-null owning
company, rounded to two decimals only at reporting, and the reported
totalValue is the sum of acquisitionPrice times weight, rounded to a
whole number (not two decimals) at reporting; null-owner properties
contribute nothing to either sum and no intermediate value is
rounded. -/
theorem C6_weighted_sums (s : DBState) (organizationId userId fuel : Nat)
    (u : User) (root : Nat) (hu : getUser s userId = some u)
    (hroot : u.assignedCompanyId = some root)
    (hri : ∀ p ∈ s.properties, ∀ cid, p.ownerCompanyId = some cid →
      ∃ c ∈ s.companies, c.id = cid) :
    (calculateWeightedStats s organizationId userId fuel).count =
      roundTo2 (((s.properties.filter
        (fun p => p.organizationId == organizationId)).map
        (fun p => match p.ownerCompanyId with
          | none => (0:ℚ)
          | some cid => calculateOwnershipFromRoot
              (orgRelations s organizationId) fuel root cid)).sum) ∧
    (calculateWeightedStats s organizationId userId fuel).totalValue =
      ((jsRound (((s.properties.filter
        (fun p => p.organizationId == organizationId)).map
        (fun p => p.acquisitionPrice *
          match p.ownerCompanyId with
          | none => (0:ℚ)
          | some cid => calculateOwnershipFromRoot
              (orgRelations s organizationId) fuel root cid)).sum)) : ℚ) := by
  have hcount : ∀ p ∈ s.properties.filter
      (fun p => p.organizationId == organizationId),
      (match ownerJoin s p with
        | none => (0:ℚ)
        | some oc => calculateOwnershipFromRoot
            (orgRelations s organizationId) fuel root oc.id) =
      (match p.ownerCompanyId with
        | none => (0:ℚ)
        | some cid => calculateOwnershipFromRoot
            (orgRelations s organizationId) fuel root cid) := by
    intro p hp
    exact ownerJoin_weight s _ p (List.mem_of_mem_filter hp) hri
  simp only [calculateWeightedStats, hu, hroot]
  by_cases hemp : s.properties.filter
      (fun p => p.organizationId == organizationId) = []
  · rw [hemp]
    norm_num [roundTo2, jsRound]
  · have hcond : (((s.properties.filter
        (fun p => p.organizationId == organizationId)).map
        (fun p => (p, ownerJoin s p))).length == 0) = false := by
      simp [hemp]
    simp only [hcond, Bool.false_eq_true, if_false]
    rw [weightedFold (fun cid => calculateOwnershipFromRoot
      (orgRelations s organizationId) fuel root cid) _ 0 0]
    simp only [List.map_map, zero_add]
    constructor
    · show roundTo2 _ = roundTo2 _
      congr 1
      refine congrArg List.sum (List.map_congr_left ?_)
      intro p hp
      exact hcount p hp
    · show ((jsRound _ : ℤ) : ℚ) = ((jsRound _ : ℤ) : ℚ)
      congr 2
      refine congrArg List.sum (List.map_congr_left ?_)
      intro p hp
      exact congrArg (fun w => p.acquisitionPrice * w) (hcount p hp)

/-- A weighted-view role user of organization 1 rooted at company 1. -/
def c6User : User := ⟨8, 1, Role.user, some 1, ViewMode.weighted⟩

/-- A property of organization 1 owned by company 2 with acquisition
price 101. -/
def c6Property : Property := ⟨300, some 2, 1, 101, some 20240101⟩

/-- The store of the C6 counterexample: company 1 owns 50% of company
2, which owns the 101-priced property. -/
def c6State : DBState :=
  { users := [c6User], companies := [⟨1, 1⟩, ⟨2, 1⟩],
    companyRelations := [⟨50, 1, 2, 50⟩], properties := [c6Property],
    leases := [] }

/-- Counterexample to C6 as stated: the weighted value 101 x 0.5 = 50.5
is reported as totalValue 51 — Math.round to a whole number — whereas
rounding the aggregate to 2 decimal places as the claim states would
report 50.5. -/
theorem C6_rounding_counterexample :
    (calculateWeightedStats c6State 1 8 5).totalValue = 51 ∧
      roundTo2 ((101:ℚ) * (50/100)) = 101/2 ∧
      (51:ℚ) ≠ 101/2 := by
  refine ⟨?_, ?_, ?_⟩
  · norm_num [calculateWeightedStats, getUser, c6State, c6User, c6Property,
      ownerJoin, orgRelations, getLeases, calculateOwnershipFromRoot,
      roundTo2, jsRound, sortDateDesc, insertDateDesc, List.filter,
      List.find?, getChildRelations,
      show ((1:Nat) == 2) = false from rfl,
      show ((2:Nat) == 2) = true from rfl,
      show ((1:Nat) == 1) = true from rfl]
  · norm_num [roundTo2, jsRound]
  · norm_num

/-- Witness for C6 (amended) on the concrete store: both reported
aggregates match the sum formulas. -/
theorem C6_weighted_sums_witness :
    (calculateWeightedStats c6State 1 8 5).count =
      roundTo2 (((c6State.properties.filter
        (fun p => p.organizationId == 1)).map
        (fun p => match p.ownerCompanyId with
          | none => (0:ℚ)
          | some cid => calculateOwnershipFromRoot
              (orgRelations c6State 1) 5 1 cid)).sum) ∧
    (calculateWeightedStats c6State 1 8 5).totalValue =
      ((jsRound (((c6State.properties.filter
        (fun p => p.organizationId == 1)).map
        (fun p => p.acquisitionPrice *
          match p.ownerCompanyId with
          | none => (0:ℚ)
          | some cid => calculateOwnershipFromRoot
              (orgRelations c6State 1) 5 1 cid)).sum)) : ℚ) := by
  refine C6_weighted_sums c6State 1 8 5 c6User 1 (by decide) rfl ?_
  intro p hp cid hcid
  fin_cases hp
  simp [c6Property] at hcid
  subst hcid
  exact ⟨⟨2, 1⟩, by decide, rfl⟩
